import Mathlib

/-!
Shallow embedding of the event-decay risk engine and simulators of the
Finance-X repository (src/engine.py, src/performance_engine.py,
src/models.py), together with theorems settling the frozen claims about
them.  Python floats are modelled as real numbers, `datetime` values as
real-valued seconds, and a Python `ZeroDivisionError` as an `Option`
result (`none` = the exception).  Randomness (`random.gauss`,
`random.uniform`) is injected: each realized draw is an explicit
parameter of the embedded function.
-/

namespace FinanceX

/-! ## Data model (src/models.py) -/

/-- PricePoint from models.py: timestamp (seconds), price, volume. -/
structure PricePoint where
  timestamp : ℝ
  price : ℝ
  volume : ℤ

instance : Inhabited PricePoint := ⟨⟨0, 0, 0⟩⟩

/-- Ticker from models.py. -/
structure Ticker where
  symbol : String
  name : String
  current_price : ℝ
  change_pct : ℝ
  history : List PricePoint
  sector : String

/-- MarketEvent from models.py. -/
structure MarketEvent where
  timestamp : ℝ
  event_type : String
  description : String
  base_impact : ℝ
  asset_class : String

/-- ProcessedEvent from models.py. -/
structure ProcessedEvent where
  original_event : MarketEvent
  current_weight : ℝ
  relevance_score : ℝ

instance : Inhabited ProcessedEvent := ⟨⟨⟨0, "", "", 0, ""⟩, 0, 0⟩⟩

/-- SystemState enum from models.py. -/
inductive SystemState where
  | STABLE
  | HIGH_VOLATILITY
  | BULL_RUN
  | BEAR_MARKET
  | CRASH
deriving DecidableEq, Repr

/-- MarketRegime enum from models.py. -/
inductive MarketRegime where
  | LOW_VOL
  | HIGH_VOL
  | TRENDING_UP
  | TRENDING_DOWN
deriving DecidableEq, Repr

/-- MarketSnapshot from models.py (here the functional-ledger variant,
holding the ProcessedEvent values of the top events). -/
structure MarketSnapshot where
  timestamp : ℝ
  state : SystemState
  risk_score : ℝ
  active_events : List ProcessedEvent
  regime : MarketRegime

/-! ## TechnicalAnalysis.calculate_bollinger_bands (src/engine.py lines 9-30) -/

/-- Band values produced at one loop index i of calculate_bollinger_bands:
pass-through of the raw price when `i < window - 1`, otherwise mean,
population standard deviation (divide by window = N) and the
mean plus/minus num_std standard deviations over the trailing
`window` prices (the Python slice `prices[i-window+1 : i+1]`). -/
noncomputable def bandsAt (prices : List ℝ) (window : ℕ) (num_std : ℝ) (i : ℕ) :
    ℝ × ℝ × ℝ :=
  if i < window - 1 then
    (prices.getD i 0, prices.getD i 0, prices.getD i 0)
  else
    let slice_data := (prices.drop (i + 1 - window)).take window
    let avg := slice_data.sum / (window : ℝ)
    let variance := (slice_data.map fun x => (x - avg) ^ 2).sum / (window : ℝ)
    let std_dev := Real.sqrt variance
    (avg + std_dev * num_std, avg, avg - std_dev * num_std)

/-- TechnicalAnalysis.calculate_bollinger_bands: returns
(upper band, middle band, lower band), one value per input index. -/
noncomputable def calculate_bollinger_bands (history : List PricePoint)
    (window : ℕ) (num_std : ℝ) : List ℝ × List ℝ × List ℝ :=
  let prices := history.map fun p => p.price
  ((List.range prices.length).map fun i => (bandsAt prices window num_std i).1,
   (List.range prices.length).map fun i => (bandsAt prices window num_std i).2.1,
   (List.range prices.length).map fun i => (bandsAt prices window num_std i).2.2)

/-- Python float division: raises ZeroDivisionError on a zero divisor,
modelled as `none`. -/
noncomputable def pydiv (a b : ℝ) : Option ℝ :=
  if b = 0 then none else some (a / b)

/-- Result dictionary of analyze_risk_depth.  The insufficient-data branch
returns a dictionary without a volatility key, modelled as
`volatility := none`. -/
structure RiskDepthResult where
  depth : String
  advice : String
  bid : ℝ
  volatility : Option ℝ

/-- TechnicalAnalysis.analyze_risk_depth (src/engine.py lines 33-62).
The overall `Option` is `none` exactly when the final
`(upper_curr - lower_curr) / m[-1]` division raises ZeroDivisionError. -/
noncomputable def analyze_risk_depth (ticker : Ticker) : Option RiskDepthResult :=
  if ticker.history.length < 20 then
    some { depth := "LOW", advice := "INSUFFICIENT DATA", bid := 0.0, volatility := none }
  else
    let ubl := calculate_bollinger_bands ticker.history 20 2.0
    let current_price := ticker.current_price
    let upper_curr := ubl.1.getLastD 0
    let lower_curr := ubl.2.2.getLastD 0
    let middle_curr := ubl.2.1.getLastD 0
    let dab : String × String × ℝ :=
      if current_price > upper_curr then
        ("CRITICAL (OVERBOUGHT)", "SELL / HEDGE", lower_curr)
      else if current_price < lower_curr then
        ("OPPORTUNITY (OVERSOLD)", "ACCUMULATE", current_price * 0.98)
      else
        ("NEUTRAL", "HOLD", lower_curr)
    match pydiv (upper_curr - lower_curr) middle_curr with
    | none => none
    | some v =>
      some { depth := dab.1, advice := dab.2.1, bid := dab.2.2, volatility := some v }

/-! ## PerformanceEngine.calculate_bollinger_bands_vectorized
(src/performance_engine.py lines 42-62).  Pandas NaN entries are
modelled as `none`. -/

/-- Pandas Series.rolling(window).mean(): NaN (none) until a full window
is available, then the mean of the trailing `window` values. -/
noncomputable def rollingMean (prices : List ℝ) (window : ℕ) : List (Option ℝ) :=
  (List.range prices.length).map fun i =>
    if i + 1 < window then none
    else some (((prices.drop (i + 1 - window)).take window).sum / (window : ℝ))

/-- Pandas Series.rolling(window).std(): sample standard deviation
(ddof = 1, divide by window - 1); NaN (none) until a full window is
available, and NaN everywhere when window < 2 (0/0 in pandas). -/
noncomputable def rollingStd (prices : List ℝ) (window : ℕ) : List (Option ℝ) :=
  (List.range prices.length).map fun i =>
    if i + 1 < window ∨ window < 2 then none
    else
      let s := (prices.drop (i + 1 - window)).take window
      let avg := s.sum / (window : ℝ)
      some (Real.sqrt ((s.map fun x => (x - avg) ^ 2).sum / ((window - 1 : ℕ) : ℝ)))

/-- Elementwise pandas arithmetic with NaN propagation. -/
def nanMap2 (f : ℝ → ℝ → ℝ) : Option ℝ → Option ℝ → Option ℝ
  | some a, some b => some (f a b)
  | _, _ => none

/-- Pandas backward fillna (the bfill method): each NaN entry is replaced by the next
valid value below it; trailing NaN entries stay NaN. -/
def bfill : List (Option ℝ) → List (Option ℝ)
  | [] => []
  | x :: xs =>
    let rest := bfill xs
    match x with
    | some v => some v :: rest
    | none => rest.headD none :: rest

/-- PerformanceEngine.calculate_bollinger_bands_vectorized: returns
(upper, middle, lower); empty arrays when the input is empty or shorter
than the window. -/
noncomputable def calculate_bollinger_bands_vectorized (prices : List ℝ)
    (window : ℕ) (num_std : ℝ) :
    List (Option ℝ) × List (Option ℝ) × List (Option ℝ) :=
  if prices = [] ∨ prices.length < window then ([], [], [])
  else
    let middle := rollingMean prices window
    let std := rollingStd prices window
    let upper := List.zipWith (nanMap2 fun m s => m + s * num_std) middle std
    let lower := List.zipWith (nanMap2 fun m s => m - s * num_std) middle std
    (bfill upper, bfill middle, bfill lower)

/-! ## MarketSimulator.update_prices (src/engine.py lines 475-508),
embedded per ticker with the realized random draws injected. -/

/-- Python round(x, 2).  Modelled with the mathlib `round` (Python uses
round-half-to-even on binary floats; no claim depends on ties). -/
noncomputable def round2 (x : ℝ) : ℝ := (round (100 * x) : ℤ) / 100

/-- One tick of input to the simulator for one ticker: the current time,
the aggregate system risk, the realized `random.gauss` shock and the
realized volume draw. -/
structure TickInput where
  time : ℝ
  system_risk : ℝ
  shock : ℝ
  volume : ℤ

/-- Regime bias from update_prices: crash, high-vol, stable, else 0. -/
noncomputable def risk_bias (system_risk : ℝ) : ℝ :=
  if system_risk > 25.0 then -0.02
  else if system_risk > 15.0 then -0.005
  else if system_risk < 5.0 then 0.001
  else 0

/-- The PricePoint appended by one update_prices tick for one ticker. -/
noncomputable def newPoint (t : Ticker) (inp : TickInput) : PricePoint :=
  let bias := risk_bias inp.system_risk
  let change_pct := if t.symbol = "VIX" then inp.shock - bias * 5 else inp.shock + bias
  ⟨inp.time, round2 (t.current_price * (1 + change_pct)), inp.volume⟩

/-- MarketSimulator.update_prices restricted to one ticker, with the
random draws injected through `inp`: append the new point, pop the
oldest point once the history exceeds 100, and recompute change_pct
against the oldest retained point. -/
noncomputable def update_prices (t : Ticker) (inp : TickInput) : Ticker :=
  let p := newPoint t inp
  let history1 := t.history ++ [p]
  let history2 := if 100 < history1.length then history1.tail else history1
  let oldest := (history2.headD default).price
  { t with
    current_price := p.price
    history := history2
    change_pct := (p.price - oldest) / oldest * 100 }

/-- Iterated update_prices ticks for one ticker. -/
noncomputable def run_ticks (t : Ticker) (inps : List TickInput) : Ticker :=
  inps.foldl update_prices t

/-- The sequence of points appended along a run of ticks. -/
noncomputable def run_points (t : Ticker) : List TickInput → List PricePoint
  | [] => []
  | inp :: rest => newPoint t inp :: run_points (update_prices t inp) rest

/-! ## IntelligenceEngine (src/engine.py lines 510-562), functional ledger
view.  The mutable fields of the Python object are threaded as an explicit
state record; the price-simulator advance performed inside detect_state
(update_prices) is the function embedded above and touches neither the
event ledger nor the state/regime/snapshot fields. -/

/-- The mutable state of an IntelligenceEngine: its event ledger,
decay rate and sticky state/regime. -/
structure EngineState where
  events : List ProcessedEvent
  decay_rate : ℝ
  current_state : SystemState
  current_regime : MarketRegime

/-- IntelligenceEngine.__init__ with the given decay_rate. -/
def initEngine (decay_rate : ℝ) : EngineState :=
  { events := [], decay_rate := decay_rate,
    current_state := SystemState.STABLE, current_regime := MarketRegime.LOW_VOL }

/-- IntelligenceEngine.ingest: wrap the event with
relevance = base_impact * 1.0 and append it; no dedup, no validation. -/
def ingest (event : MarketEvent) (s : EngineState) : EngineState :=
  let relevance := event.base_impact * 1.0
  { s with events := s.events ++
      [{ original_event := event, current_weight := relevance, relevance_score := relevance }] }

/-- The decayed weight computed inside apply_decay:
relevance_score * exp(-decay_rate * age_hours) with
age_hours = (current_time - event timestamp) / 3600. -/
noncomputable def decayedWeight (rate current_time : ℝ) (p : ProcessedEvent) : ℝ :=
  p.relevance_score *
    Real.exp (-rate * ((current_time - p.original_event.timestamp) / 3600))

/-- The in-place weight update of one ledger entry during apply_decay. -/
noncomputable def decayUpdate (rate current_time : ℝ) (p : ProcessedEvent) : ProcessedEvent :=
  { p with current_weight := decayedWeight rate current_time p }

/-- IntelligenceEngine.apply_decay: recompute every weight from the
immutable relevance_score and age, then keep only the events whose new
weight exceeds 0.5. -/
noncomputable def apply_decay (current_time : ℝ) (s : EngineState) : EngineState :=
  let kept := (s.events.map (decayUpdate s.decay_rate current_time)).filter
    (fun p => 0.5 < p.current_weight)
  { s with events := kept }

/-- The aggregate risk summed inside detect_state. -/
noncomputable def total_risk (s : EngineState) : ℝ :=
  (s.events.map fun e => e.current_weight).sum

/-- The threshold chain of detect_state (src/engine.py lines 542-550):
an if/elif chain whose fall-through keeps the previous state and regime. -/
noncomputable def classify (risk : ℝ) (st : SystemState) (rg : MarketRegime) :
    SystemState × MarketRegime :=
  if risk > 25.0 then (SystemState.CRASH, MarketRegime.HIGH_VOL)
  else if risk > 15.0 then (SystemState.HIGH_VOLATILITY, MarketRegime.HIGH_VOL)
  else if risk < 5.0 then (SystemState.STABLE, MarketRegime.LOW_VOL)
  else (st, rg)

/-- The stable descending-by-weight order used by
`sorted(self.events, key=lambda x: x.current_weight, reverse=True)`:
a precedes b when the weight of a is at least the weight of b. -/
def wge (a b : ProcessedEvent) : Prop := b.current_weight ≤ a.current_weight

noncomputable instance : DecidableRel wge := fun a b => Real.decidableLE _ _

instance : IsTotal ProcessedEvent wge :=
  ⟨fun a b => le_total b.current_weight a.current_weight⟩

instance : IsTrans ProcessedEvent wge :=
  ⟨fun _ _ _ hab hbc => le_trans hbc hab⟩

/-- IntelligenceEngine.detect_state: classify the aggregate risk through
the sticky threshold chain, take the top 5 events of the stable
descending sort, and return the snapshot together with the updated
engine state. -/
noncomputable def detect_state (current_time : ℝ) (s : EngineState) :
    MarketSnapshot × EngineState :=
  let risk := total_risk s
  let st := (classify risk s.current_state s.current_regime).1
  let rg := (classify risk s.current_state s.current_regime).2
  let top_events := (List.insertionSort wge s.events).take 5
  ({ timestamp := current_time, state := st, risk_score := round2 risk,
     active_events := top_events, regime := rg },
   { s with current_state := st, current_regime := rg })

/-! ## Reference-semantics view of the engine, for the snapshot aliasing
claim.  A Python ProcessedEvent object is a heap cell; `heap` lists every
cell ever allocated (position = object identity), `events` is the
self.events list of references, and a snapshot stores references.  This
makes the in-place mutation performed by apply_decay observable through
previously returned snapshots, exactly as in the Python source. -/

/-- A ProcessedEvent heap cell: immutable relevance_score and event
timestamp, mutable current_weight. -/
structure StoredEvent where
  relevance_score : ℝ
  timestamp : ℝ
  current_weight : ℝ

instance : Inhabited StoredEvent := ⟨⟨0, 0, 0⟩⟩

/-- Engine state under reference semantics. -/
structure EngineHeap where
  heap : List StoredEvent
  events : List ℕ
  decay_rate : ℝ
  current_state : SystemState
  current_regime : MarketRegime

/-- IntelligenceEngine.__init__ under reference semantics. -/
def initEngineHeap (decay_rate : ℝ) : EngineHeap :=
  { heap := [], events := [], decay_rate := decay_rate,
    current_state := SystemState.STABLE, current_regime := MarketRegime.LOW_VOL }

/-- The current_weight of the ProcessedEvent object referenced by i. -/
def readWeight (s : EngineHeap) (i : ℕ) : ℝ := (s.heap.getD i default).current_weight

/-- ingest under reference semantics: allocate a fresh ProcessedEvent
cell and append a reference to it. -/
def ingestHeap (ts impact : ℝ) (s : EngineHeap) : EngineHeap :=
  { s with
    heap := s.heap ++ [⟨impact * 1.0, ts, impact * 1.0⟩],
    events := s.events ++ [s.heap.length] }

/-- The decayed copy of a stored event cell: the contents the apply_decay
loop writes back into the cell. -/
noncomputable def decayCell (rate now : ℝ) (p : StoredEvent) : StoredEvent :=
  { p with current_weight :=
      p.relevance_score * Real.exp (-rate * ((now - p.timestamp) / 3600)) }

/-- One iteration of the apply_decay loop: mutate the referenced cell in
place, and append the reference to the kept list when the new weight
exceeds 0.5. -/
noncomputable def decayStep (rate now : ℝ) (acc : List StoredEvent × List ℕ) (i : ℕ) :
    List StoredEvent × List ℕ :=
  let p := acc.1.getD i default
  let w := p.relevance_score * Real.exp (-rate * ((now - p.timestamp) / 3600))
  (acc.1.set i { p with current_weight := w },
   if 0.5 < w then acc.2 ++ [i] else acc.2)

/-- apply_decay under reference semantics: the loop over self.events,
mutating every referenced cell and rebuilding the list of survivors. -/
noncomputable def applyDecayHeap (now : ℝ) (s : EngineHeap) : EngineHeap :=
  let r := s.events.foldl (decayStep s.decay_rate now) (s.heap, [])
  { s with heap := r.1, events := r.2 }

/-- Snapshot under reference semantics: active_events stores references
to the same ProcessedEvent objects the ledger mutates. -/
structure SnapshotHeap where
  timestamp : ℝ
  state : SystemState
  risk_score : ℝ
  active_events : List ℕ
  regime : MarketRegime

/-- The stable descending order on references, by current heap weight. -/
def wgeHeap (h : List StoredEvent) (i j : ℕ) : Prop :=
  (h.getD j default).current_weight ≤ (h.getD i default).current_weight

noncomputable instance (h : List StoredEvent) : DecidableRel (wgeHeap h) :=
  fun i j => Real.decidableLE _ _

/-- detect_state under reference semantics. -/
noncomputable def detectStateHeap (now : ℝ) (s : EngineHeap) : SnapshotHeap × EngineHeap :=
  let risk := (s.events.map fun i => (s.heap.getD i default).current_weight).sum
  let st := (classify risk s.current_state s.current_regime).1
  let rg := (classify risk s.current_state s.current_regime).2
  let top_events := (List.insertionSort (wgeHeap s.heap) s.events).take 5
  ({ timestamp := now, state := st, risk_score := round2 risk,
     active_events := top_events, regime := rg },
   { s with current_state := st, current_regime := rg })

/-! ## PerformanceEngine.batch_update_tankers
(src/performance_engine.py lines 100-146). -/

/-- The numpy arctan2 function (arctan2 y x is the angle of the point
with abscissa x and ordinate y). -/
noncomputable def arctan2 (y x : ℝ) : ℝ :=
  if 0 < x then Real.arctan (y / x)
  else if x < 0 then
    (if 0 ≤ y then Real.arctan (y / x) + Real.pi else Real.arctan (y / x) - Real.pi)
  else
    (if 0 < y then Real.pi / 2 else if y < 0 then -(Real.pi / 2) else 0)

/-- Radians to degrees (np.degrees). -/
noncomputable def degrees (x : ℝ) : ℝ := x * 180 / Real.pi

/-- The clamped distance array of batch_update_tankers: euclidean
distances to destination, floored at 0.001 by np.maximum before any
division. -/
noncomputable def clamped_distances (latitudes longitudes dest_lats dest_lons : List ℝ) :
    List ℝ :=
  let dy := List.zipWith (fun d l => d - l) dest_lats latitudes
  let dx := List.zipWith (fun d l => d - l) dest_lons longitudes
  (List.zipWith (fun a b => Real.sqrt (a ^ 2 + b ^ 2)) dx dy).map fun d => max d 0.001

/-- PerformanceEngine.batch_update_tankers: returns
(new latitudes, new longitudes, new headings, arrived mask).  Every
division is by an entry of `clamped_distances`. -/
noncomputable def batch_update_tankers (latitudes longitudes dest_lats dest_lons : List ℝ)
    (statuses : List ℤ) (speed_factor : ℝ) :
    List ℝ × List ℝ × List ℝ × List Bool :=
  let dy := List.zipWith (fun d l => d - l) dest_lats latitudes
  let dx := List.zipWith (fun d l => d - l) dest_lons longitudes
  let distances := clamped_distances latitudes longitudes dest_lats dest_lons
  let arrived := distances.map fun d => decide (d < 2.0)
  let speed := 0.8 * speed_factor
  let move_lat := List.zipWith (fun y d => y / d * speed) dy distances
  let move_lon := List.zipWith (fun x d => x / d * speed) dx distances
  let active := List.zipWith (fun (st : ℤ) (a : Bool) => st == 1 && !a) statuses arrived
  let new_lats := List.zipWith (fun (p : ℝ × ℝ) (act : Bool) =>
    if act then p.1 + p.2 else p.1) (List.zipWith Prod.mk latitudes move_lat) active
  let new_lons := List.zipWith (fun (p : ℝ × ℝ) (act : Bool) =>
    if act then p.1 + p.2 else p.1) (List.zipWith Prod.mk longitudes move_lon) active
  let new_headings := List.zipWith (fun (p : ℝ × ℝ) (act : Bool) =>
    if act then degrees (arctan2 p.1 p.2) else 0) (List.zipWith Prod.mk dx dy) active
  (new_lats, new_lons, new_headings, arrived)

/-! ## Concrete scenarios used to witness the claims -/

/-- An engine state holding one event of the given weight, with the given
previous state and regime. -/
def engineWith (st : SystemState) (rg : MarketRegime) (w : ℝ) : EngineState :=
  { events := [⟨⟨0, "NEWS", "evt", w, "ALL"⟩, w, w⟩],
    decay_rate := 0.1, current_state := st, current_regime := rg }

/-- The event of the memory-decay test: base_impact 10.0 at time 0. -/
def evt10 : MarketEvent := ⟨0, "NEWS", "Test Event", 10.0, "STOCKS"⟩

/-- A small event whose weight decays below the prune floor within an hour. -/
def evt05 : MarketEvent := ⟨0, "NEWS", "Minor Event", 0.5, "STOCKS"⟩

/-- The ProcessedEvent created by ingesting evt10. -/
def pe10 : ProcessedEvent :=
  { original_event := evt10, current_weight := 10.0 * 1.0, relevance_score := 10.0 * 1.0 }

/-- The ProcessedEvent created by ingesting evt05. -/
def pe05 : ProcessedEvent :=
  { original_event := evt05, current_weight := 0.5 * 1.0, relevance_score := 0.5 * 1.0 }

/-- A ProcessedEvent with the given description and weight, for the
stability witness. -/
def mkPE (d : String) (w : ℝ) : ProcessedEvent := ⟨⟨0, "NEWS", d, w, "ALL"⟩, w, w⟩

/-- A ledger holding six events in descending weight order with a tie at
weight 1. -/
def sTies : EngineState :=
  { events := [mkPE "A" 5, mkPE "B" 4, mkPE "C" 3, mkPE "D" 2, mkPE "E" 1, mkPE "F" 1],
    decay_rate := 0.1, current_state := SystemState.STABLE,
    current_regime := MarketRegime.LOW_VOL }

/-- A price point at price zero. -/
def zeroPricePoint : PricePoint := ⟨0, 0, 0⟩

/-- A ticker with 20 history points, all at price 0: its middle band is 0
at every index. -/
def zeroTicker : Ticker :=
  ⟨"ZERO", "Zero Asset", 0, 0, List.replicate 20 zeroPricePoint, "GENERAL"⟩

/-- One concrete simulator tick input. -/
def tick0 : TickInput := ⟨1, 10, 0, 0⟩

/-- A ticker with a single initial history point, as built by
MarketSimulator.__init__. -/
def spxTicker : Ticker := ⟨"SPX", "SP 500", 1, 0, [⟨0, 1, 0⟩], "GENERAL"⟩

/-- A history of two points at the constant price 5. -/
def constHistory : List PricePoint := [⟨0, 5, 0⟩, ⟨1, 5, 0⟩]

/-! ## Theorems: general helper lemmas -/

/-- The engine state returned by detect_state carries the classify result
in its current_state field. -/
lemma detect_state_state (now : ℝ) (s : EngineState) :
    (detect_state now s).2.current_state =
      (classify (total_risk s) s.current_state s.current_regime).1 := rfl

/-- The engine state returned by detect_state carries the classify result
in its current_regime field. -/
lemma detect_state_regime (now : ℝ) (s : EngineState) :
    (detect_state now s).2.current_regime =
      (classify (total_risk s) s.current_state s.current_regime).2 := rfl

/-- The aggregate risk of a one-event engine is the weight of that event. -/
lemma total_risk_engineWith (st : SystemState) (rg : MarketRegime) (w : ℝ) :
    total_risk (engineWith st rg w) = w := by
  simp [total_risk, engineWith]

/-! ## C1: regime thresholds and stickiness -/

/-- C1: for every call to detect_state with aggregate risk r: r > 25 sets
CRASH/HIGH_VOL; 15 < r ≤ 25 sets HIGH_VOLATILITY/HIGH_VOL; r < 5 sets
STABLE/LOW_VOL; 5 ≤ r ≤ 15 retains the previous state and regime; in
particular a risk of exactly 10 starting from CRASH leaves CRASH. -/
theorem c1_regime_thresholds_and_stickiness (s : EngineState) (now : ℝ) :
    (25.0 < total_risk s →
      (detect_state now s).2.current_state = SystemState.CRASH ∧
      (detect_state now s).2.current_regime = MarketRegime.HIGH_VOL) ∧
    (15.0 < total_risk s ∧ total_risk s ≤ 25.0 →
      (detect_state now s).2.current_state = SystemState.HIGH_VOLATILITY ∧
      (detect_state now s).2.current_regime = MarketRegime.HIGH_VOL) ∧
    (total_risk s < 5.0 →
      (detect_state now s).2.current_state = SystemState.STABLE ∧
      (detect_state now s).2.current_regime = MarketRegime.LOW_VOL) ∧
    (5.0 ≤ total_risk s ∧ total_risk s ≤ 15.0 →
      (detect_state now s).2.current_state = s.current_state ∧
      (detect_state now s).2.current_regime = s.current_regime) ∧
    (s.current_state = SystemState.CRASH → total_risk s = 10.0 →
      (detect_state now s).2.current_state = SystemState.CRASH) := by
  have hst := detect_state_state now s
  have hrg := detect_state_regime now s
  unfold classify at hst hrg
  split_ifs at hst hrg with h1 h2 h3
  · exact ⟨fun _ => ⟨hst, hrg⟩, fun hb => absurd h1 (by push_neg; linarith [hb.2]),
      fun hc => absurd h1 (by push_neg; linarith), fun hd => absurd h1 (by push_neg; linarith [hd.2]),
      fun _ h10 => hst⟩
  · exact ⟨fun ha => absurd ha h1, fun _ => ⟨hst, hrg⟩,
      fun hc => absurd h2 (by push_neg; linarith), fun hd => absurd h2 (by push_neg; linarith [hd.2]),
      fun _ h10 => absurd h2 (by push_neg; rw [h10]; norm_num)⟩
  · exact ⟨fun ha => absurd ha h1, fun hb => absurd hb.1 h2, fun _ => ⟨hst, hrg⟩,
      fun hd => absurd h3 (by push_neg; linarith [hd.1]), fun _ h10 => absurd h3 (by rw [h10]; norm_num)⟩
  · exact ⟨fun ha => absurd ha h1, fun hb => absurd hb.1 h2, fun hc => absurd hc h3,
      fun _ => ⟨hst, hrg⟩, fun he _ => hst.trans he⟩

/-- Witness for c1_regime_thresholds_and_stickiness at risks 30, 20, 1
and (from CRASH) 10. -/
theorem c1_regime_witness :
    (detect_state 0 (engineWith SystemState.STABLE MarketRegime.LOW_VOL 30)).2.current_state =
      SystemState.CRASH ∧
    (detect_state 0 (engineWith SystemState.STABLE MarketRegime.LOW_VOL 20)).2.current_state =
      SystemState.HIGH_VOLATILITY ∧
    (detect_state 0 (engineWith SystemState.CRASH MarketRegime.HIGH_VOL 1)).2.current_state =
      SystemState.STABLE ∧
    (detect_state 0 (engineWith SystemState.CRASH MarketRegime.HIGH_VOL 10)).2.current_state =
      SystemState.CRASH := by
  refine ⟨((c1_regime_thresholds_and_stickiness _ 0).1 ?_).1,
    ((c1_regime_thresholds_and_stickiness _ 0).2.1 ?_).1,
    ((c1_regime_thresholds_and_stickiness _ 0).2.2.1 ?_).1,
    (c1_regime_thresholds_and_stickiness _ 0).2.2.2.2 rfl ?_⟩
  · rw [total_risk_engineWith]; norm_num
  · rw [total_risk_engineWith]; norm_num
  · rw [total_risk_engineWith]; norm_num
  · rw [total_risk_engineWith]; norm_num

/-! ## C2: the decay closed form -/

/-- Numeric bound: 10 * exp(-0.7) is within 0.01 of 4.966, via the degree-6
Taylor remainder bound on the exponential. -/
lemma ten_exp_near : |10 * Real.exp (-(0.7 : ℝ)) - 4.966| ≤ 0.01 := by
  have habs : |(-(0.7 : ℝ))| ≤ 1 := by
    rw [abs_neg, abs_of_nonneg (by norm_num : (0 : ℝ) ≤ 0.7)]; norm_num
  have h6 : (0 : ℕ) < 6 := by norm_num
  have h := Real.exp_bound habs h6
  have hsum : (∑ m ∈ Finset.range 6, (-(0.7 : ℝ)) ^ m / m.factorial) = 5957243 / 12000000 := by
    rw [Finset.sum_range_succ, Finset.sum_range_succ, Finset.sum_range_succ,
      Finset.sum_range_succ, Finset.sum_range_succ, Finset.sum_range_succ,
      Finset.sum_range_zero]
    norm_num [Nat.factorial]
  rw [hsum] at h
  have h2 : |Real.exp (-(0.7 : ℝ)) - 5957243 / 12000000| ≤ 823543 / 4320000000 := by
    refine h.trans (le_of_eq ?_)
    rw [abs_neg, abs_of_nonneg (by norm_num : (0 : ℝ) ≤ 0.7)]
    norm_num [Nat.factorial]
  rw [abs_le] at h2 ⊢
  constructor <;> linarith [h2.1, h2.2]

/-- Exp(-0.7) stays above the prune floor ratio: 0.5 < 10 * 1.0 * exp(-0.7). -/
lemma exp07_keeps : (0.5 : ℝ) < 10.0 * 1.0 * Real.exp (-(0.7 : ℝ) * ((3600 - 0) / 3600)) := by
  have h := Real.add_one_le_exp (-(0.7 : ℝ) * ((3600 - (0 : ℝ)) / 3600))
  nlinarith [h]

/-- The ledger of the one-event decay scenario after apply_decay at one
hour: the single surviving updated event. -/
lemma applyDecay_evt10_events :
    (apply_decay 3600 (ingest evt10 (initEngine 0.7))).events =
      [decayUpdate 0.7 3600 pe10] := by
  have hkeep : decide (0.5 < (decayUpdate 0.7 3600 pe10).current_weight) = true := by
    rw [decide_eq_true_eq]
    show (0.5 : ℝ) < 10.0 * 1.0 * Real.exp (-(0.7 : ℝ) * ((3600 - evt10.timestamp) / 3600))
    exact exp07_keeps
  show (([pe10].map (decayUpdate 0.7 3600)).filter
    (fun p => 0.5 < p.current_weight)) = [decayUpdate 0.7 3600 pe10]
  rw [List.map_singleton, List.filter_cons, if_pos hkeep]
  rfl

/-- C2: apply_decay writes relevance_score * exp(-decay_rate * age_hours)
into every retained event, where age_hours = (now - timestamp) / 3600;
in particular with rate 0.7, relevance 10 and one hour of age the weight
is within 0.01 of 4.966. -/
theorem c2_decay_formula (s : EngineState) (now : ℝ) (p : ProcessedEvent)
    (hmem : p ∈ (apply_decay now s).events)
    (hts : p.original_event.timestamp ≤ now) :
    (∀ q ∈ s.events, (decayUpdate s.decay_rate now q).current_weight =
      q.relevance_score *
        Real.exp (-s.decay_rate * ((now - q.original_event.timestamp) / 3600))) ∧
    p.current_weight =
      p.relevance_score *
        Real.exp (-s.decay_rate * ((now - p.original_event.timestamp) / 3600)) ∧
    (s.decay_rate = 0.7 → p.relevance_score = 10 →
      now - p.original_event.timestamp = 3600 →
      |p.current_weight - 4.966| ≤ 0.01) := by
  have hform : p.current_weight =
      p.relevance_score *
        Real.exp (-s.decay_rate * ((now - p.original_event.timestamp) / 3600)) := by
    obtain ⟨q, hq, rfl⟩ := List.mem_map.1 (List.mem_of_mem_filter hmem)
    rfl
  refine ⟨fun q _ => rfl, hform, fun h07 h10 hdt => ?_⟩
  rw [hform, h10, h07, hdt]
  have harg : (-(0.7 : ℝ) * ((3600 : ℝ) / 3600)) = -(0.7 : ℝ) := by norm_num
  rw [harg]
  exact ten_exp_near

/-- Witness for c2_decay_formula: the concrete one-event engine with rate
0.7, base_impact 10 at time 0, decayed at time 3600. -/
theorem c2_decay_witness :
    |((apply_decay 3600 (ingest evt10 (initEngine 0.7))).events.headD default).current_weight -
      4.966| ≤ 0.01 := by
  have hmem : decayUpdate 0.7 3600 pe10 ∈
      (apply_decay 3600 (ingest evt10 (initEngine 0.7))).events := by
    rw [applyDecay_evt10_events]; exact List.mem_singleton_self _
  have h := (c2_decay_formula (ingest evt10 (initEngine 0.7)) 3600 _ hmem
    (by show evt10.timestamp ≤ 3600; norm_num [evt10])).2.2
    rfl (by show (10.0 : ℝ) * 1.0 = 10; norm_num) (by show (3600 : ℝ) - evt10.timestamp = 3600; norm_num [evt10])
  rw [applyDecay_evt10_events]
  exact h

/-! ## C3: prune floor and blacklist-free re-ingestion -/

/-- Every event retained by apply_decay has weight above 0.5. -/
lemma mem_apply_decay_weight (s : EngineState) (now : ℝ) :
    ∀ p ∈ (apply_decay now s).events, 0.5 < p.current_weight := by
  intro p hp
  have hp2 : p ∈ (s.events.map (decayUpdate s.decay_rate now)).filter
      (fun p => decide (0.5 < p.current_weight)) := hp
  exact of_decide_eq_true ((List.mem_filter.1 hp2).2)

/-- C3: apply_decay removes (does not mark) every event whose decayed
weight is at most 0.5, every retained event has weight above 0.5, and a
subsequent ingest of any event is appended unconditionally (no
blacklist, no dedup). -/
theorem c3_prune_floor (s : EngineState) (now : ℝ) :
    (∀ p ∈ (apply_decay now s).events, 0.5 < p.current_weight) ∧
    List.Sublist (apply_decay now s).events (s.events.map (decayUpdate s.decay_rate now)) ∧
    (∀ p ∈ s.events, decayedWeight s.decay_rate now p ≤ 0.5 →
      decayUpdate s.decay_rate now p ∉ (apply_decay now s).events) ∧
    (∀ (e : MarketEvent) (s2 : EngineState),
      (ingest e s2).events = s2.events ++
        [{ original_event := e, current_weight := e.base_impact * 1.0,
           relevance_score := e.base_impact * 1.0 }]) := by
  refine ⟨mem_apply_decay_weight s now, List.filter_sublist _,
    fun p _ hle hmem => ?_, fun e s2 => rfl⟩
  have h1 := mem_apply_decay_weight s now _ hmem
  have h2 : (decayUpdate s.decay_rate now p).current_weight = decayedWeight s.decay_rate now p := rfl
  rw [h2] at h1
  linarith

/-- Exp of the one-hour decay argument is at most one (the exponent is
nonpositive), so a weight of 0.5 can only shrink. -/
lemma exp07_le_one : Real.exp (-(0.7 : ℝ) * ((3600 - 0) / 3600)) ≤ 1 := by
  rw [Real.exp_le_one_iff]
  norm_num

/-- Witness for c3_prune_floor: evt05 decays to 0.5 * exp(-0.7) and is
pruned; a later identical ingest is appended to the pruned ledger. -/
theorem c3_prune_witness :
    decayUpdate 0.7 3600 pe05 ∉ (apply_decay 3600 (ingest evt05 (initEngine 0.7))).events ∧
    (ingest evt05 (apply_decay 3600 (ingest evt05 (initEngine 0.7)))).events =
      (apply_decay 3600 (ingest evt05 (initEngine 0.7))).events ++
        [{ original_event := evt05, current_weight := evt05.base_impact * 1.0,
           relevance_score := evt05.base_impact * 1.0 }] ∧
    0.5 < (decayUpdate 0.7 3600 pe10).current_weight := by
  refine ⟨?_, (c3_prune_floor (ingest evt05 (initEngine 0.7)) 3600).2.2.2 evt05 _, ?_⟩
  · refine (c3_prune_floor (ingest evt05 (initEngine 0.7)) 3600).2.2.1 pe05 ?_ ?_
    · show pe05 ∈ [pe05]
      exact List.mem_singleton_self _
    · show (0.5 : ℝ) * 1.0 * Real.exp (-(0.7 : ℝ) * ((3600 - evt05.timestamp) / 3600)) ≤ 0.5
      have h : Real.exp (-(0.7 : ℝ) * ((3600 - evt05.timestamp) / 3600)) ≤ 1 := by
        show Real.exp (-(0.7 : ℝ) * ((3600 - (0 : ℝ)) / 3600)) ≤ 1
        exact exp07_le_one
      nlinarith [Real.exp_pos (-(0.7 : ℝ) * ((3600 - evt05.timestamp) / 3600))]
  · exact (c3_prune_floor (ingest evt10 (initEngine 0.7)) 3600).1 _
      (by rw [applyDecay_evt10_events]; exact List.mem_singleton_self _)

/-! ## C10: apply_decay is idempotent at a fixed time -/

/-- C10: calling apply_decay twice at the same time leaves the engine in
exactly the state of calling it once: weights are recomputed from the
immutable relevance_score and absolute age, never compounded. -/
theorem c10_apply_decay_idempotent (s : EngineState) (now : ℝ) :
    apply_decay now (apply_decay now s) = apply_decay now s := by
  have hfix : ∀ p ∈ (apply_decay now s).events,
      decayUpdate s.decay_rate now p = id p := by
    intro p hp
    obtain ⟨q, _, rfl⟩ := List.mem_map.1 (List.mem_of_mem_filter hp)
    rfl
  have hkeep : ∀ p ∈ (apply_decay now s).events,
      (fun p : ProcessedEvent => decide (0.5 < p.current_weight)) p = true := by
    intro p hp
    simp only [decide_eq_true_eq]
    exact mem_apply_decay_weight s now p hp
  have hev : ((apply_decay now s).events.map (decayUpdate s.decay_rate now)).filter
      (fun p => 0.5 < p.current_weight) = (apply_decay now s).events := by
    rw [List.map_congr_left hfix, List.map_id, List.filter_eq_self.2 hkeep]
  show ({ apply_decay now s with events := ((apply_decay now s).events.map (decayUpdate s.decay_rate now)).filter (fun p => 0.5 < p.current_weight) } : EngineState) = apply_decay now s
  rw [hev]

/-! ## C8: top-k selection is a stable descending sort -/

/-- Inserting an event into a list places it before every element of
equal weight: the filter at its own weight gains it at the front. -/
lemma filter_orderedInsert_eq (a : ProcessedEvent) (l : List ProcessedEvent) :
    (List.orderedInsert wge a l).filter
        (fun e => decide (e.current_weight = a.current_weight)) =
      a :: l.filter (fun e => decide (e.current_weight = a.current_weight)) := by
  induction l with
  | nil => simp [List.orderedInsert]
  | cons b l ih =>
    by_cases h : wge a b
    · rw [List.orderedInsert, if_pos h]
      simp [List.filter_cons]
    · rw [List.orderedInsert, if_neg h]
      have hb : ¬(b.current_weight = a.current_weight) := fun he => h (le_of_eq he)
      rw [List.filter_cons, List.filter_cons]
      simp [hb, ih]

/-- Inserting an event does not disturb the filter at any other weight. -/
lemma filter_orderedInsert_ne (a : ProcessedEvent) (l : List ProcessedEvent) (c : ℝ)
    (hc : ¬(a.current_weight = c)) :
    (List.orderedInsert wge a l).filter (fun e => decide (e.current_weight = c)) =
      l.filter (fun e => decide (e.current_weight = c)) := by
  induction l with
  | nil => simp [List.orderedInsert, hc]
  | cons b l ih =>
    by_cases h : wge a b
    · rw [List.orderedInsert, if_pos h]
      simp [List.filter_cons, hc]
    · rw [List.orderedInsert, if_neg h]
      rw [List.filter_cons, List.filter_cons]
      by_cases hb : b.current_weight = c
      · simp [hb, ih]
      · simp [hb, ih]

/-- The stable descending sort preserves, at every weight, the original
order of the tied events. -/
lemma filter_insertionSort (l : List ProcessedEvent) (c : ℝ) :
    (List.insertionSort wge l).filter (fun e => decide (e.current_weight = c)) =
      l.filter (fun e => decide (e.current_weight = c)) := by
  induction l with
  | nil => rfl
  | cons a l ih =>
    show (List.orderedInsert wge a (List.insertionSort wge l)).filter
        (fun e => decide (e.current_weight = c)) = _
    by_cases hc : a.current_weight = c
    · subst hc
      rw [filter_orderedInsert_eq, ih, List.filter_cons]
      simp
    · rw [filter_orderedInsert_ne _ _ _ hc, ih, List.filter_cons]
      simp [hc]

/-- C8: the active_events of the detect_state snapshot are the first
five entries of the stable descending sort of the ledger: a permutation
restriction, sorted by weight descending, with ties kept in insertion
order, and every kept event outweighs every dropped one. -/
theorem c8_topk_stable (s : EngineState) (now : ℝ) :
    (detect_state now s).1.active_events = (List.insertionSort wge s.events).take 5 ∧
    (List.insertionSort wge s.events).Perm s.events ∧
    (List.insertionSort wge s.events).Sorted wge ∧
    (∀ c : ℝ, (List.insertionSort wge s.events).filter
        (fun e => decide (e.current_weight = c)) =
      s.events.filter (fun e => decide (e.current_weight = c))) ∧
    (∀ a ∈ (List.insertionSort wge s.events).take 5,
      ∀ b ∈ (List.insertionSort wge s.events).drop 5,
        b.current_weight ≤ a.current_weight) := by
  refine ⟨rfl, List.perm_insertionSort wge s.events, List.sorted_insertionSort wge s.events,
    fun c => filter_insertionSort s.events c, fun a ha b hb => ?_⟩
  exact List.Sorted.rel_of_mem_take_of_mem_drop
    (List.sorted_insertionSort wge s.events) ha hb

/-- Evaluation of the stable sort on the six-event tie ledger: it is
already in descending order, so the sort returns it unchanged. -/
lemma sTies_sorted : List.insertionSort wge sTies.events = sTies.events := by
  have h1 : wge (mkPE "E" 1) (mkPE "F" 1) := by norm_num [wge, mkPE]
  have h2 : wge (mkPE "D" 2) (mkPE "E" 1) := by norm_num [wge, mkPE]
  have h3 : wge (mkPE "C" 3) (mkPE "D" 2) := by norm_num [wge, mkPE]
  have h4 : wge (mkPE "B" 4) (mkPE "C" 3) := by norm_num [wge, mkPE]
  have h5 : wge (mkPE "A" 5) (mkPE "B" 4) := by norm_num [wge, mkPE]
  show List.insertionSort wge
      [mkPE "A" 5, mkPE "B" 4, mkPE "C" 3, mkPE "D" 2, mkPE "E" 1, mkPE "F" 1] = _
  simp [List.insertionSort, List.orderedInsert, h1, h2, h3, h4, h5, sTies]

/-- Witness for c8_topk_stable: on the six-event ledger with a tie at
weight 1, the dropped tied event F is outweighed by the kept head A, and
the filter at the tied weight keeps the original E-before-F order. -/
theorem c8_topk_witness :
    (mkPE "F" 1).current_weight ≤ (mkPE "A" 5).current_weight ∧
    (List.insertionSort wge sTies.events).filter
        (fun e => decide (e.current_weight = 1)) =
      sTies.events.filter (fun e => decide (e.current_weight = 1)) := by
  constructor
  · refine (c8_topk_stable sTies 0).2.2.2.2 (mkPE "A" 5) ?_ (mkPE "F" 1) ?_
    · rw [sTies_sorted]
      show mkPE "A" 5 ∈ List.take 5
        [mkPE "A" 5, mkPE "B" 4, mkPE "C" 3, mkPE "D" 2, mkPE "E" 1, mkPE "F" 1]
      simp
    · rw [sTies_sorted]
      show mkPE "F" 1 ∈ List.drop 5
        [mkPE "A" 5, mkPE "B" 4, mkPE "C" 3, mkPE "D" 2, mkPE "E" 1, mkPE "F" 1]
      simp
  · exact (c8_topk_stable sTies 0).2.2.2.1 1

/-! ## C9: snapshot entries are aliased with the mutable ledger -/

/-- Setting a heap cell leaves every other cell unchanged. -/
lemma getD_set_ne (l : List StoredEvent) (i j : ℕ) (a : StoredEvent) (h : i ≠ j) :
    (l.set i a).getD j default = l.getD j default := by
  rw [List.getD_eq_getElem?_getD, List.getD_eq_getElem?_getD, List.getElem?_set_ne h]

/-- Setting a heap cell in range overwrites exactly that cell. -/
lemma getD_set_self (l : List StoredEvent) (i : ℕ) (a : StoredEvent) (h : i < l.length) :
    (l.set i a).getD i default = a := by
  rw [List.getD_eq_getElem?_getD, List.getElem?_set_self h]
  rfl

/-- The apply_decay loop never touches a cell that no reference in the
remaining event list points to. -/
lemma decay_fold_untouched (rate now : ℝ) :
    ∀ (evs : List ℕ) (st : List StoredEvent × List ℕ) (j : ℕ), j ∉ evs →
      ((evs.foldl (decayStep rate now) st).1.getD j default) = st.1.getD j default := by
  intro evs
  induction evs with
  | nil => intro st j _; rfl
  | cons k rest ih =>
    intro st j hj
    have hjk : k ≠ j := fun he => hj (he ▸ List.mem_cons_self k rest)
    have hjr : j ∉ rest := fun hr => hj (List.mem_cons_of_mem k hr)
    show ((rest.foldl (decayStep rate now) (decayStep rate now st k)).1.getD j default) = _
    rw [ih (decayStep rate now st k) j hjr]
    exact getD_set_ne st.1 k j _ hjk

/-- The apply_decay loop rewrites the cell referenced by each ledger
entry with the decay formula applied to its original contents. -/
lemma decay_fold_getD (rate now : ℝ) :
    ∀ (evs : List ℕ) (st : List StoredEvent × List ℕ) (i : ℕ),
      evs.Nodup → i ∈ evs → i < st.1.length →
      ((evs.foldl (decayStep rate now) st).1.getD i default) =
        decayCell rate now (st.1.getD i default) := by
  intro evs
  induction evs with
  | nil => intro st i _ hi; exact absurd hi (List.not_mem_nil i)
  | cons k rest ih =>
    intro st i hnd hi hlen
    have hknr : k ∉ rest := (List.nodup_cons.1 hnd).1
    rcases List.mem_cons.1 hi with hik | hir
    · subst hik
      show ((rest.foldl (decayStep rate now) (decayStep rate now st i)).1.getD i default) = _
      rw [decay_fold_untouched rate now rest _ i hknr]
      exact getD_set_self st.1 i _ hlen
    · have hik : k ≠ i := fun he => hknr (he ▸ hir)
      show ((rest.foldl (decayStep rate now) (decayStep rate now st k)).1.getD i default) = _
      rw [ih (decayStep rate now st k) i (List.nodup_cons.1 hnd).2 hir
        (by rw [show (decayStep rate now st k).1 = st.1.set k _ from rfl, List.length_set]; exact hlen)]
      rw [show (decayStep rate now st k).1 = st.1.set k _ from rfl, getD_set_ne st.1 k i _ hik]

/-- C9 amended: the snapshot record itself is newly constructed and never
mutated, but its active_events entries are references to the same
ProcessedEvent objects the ledger owns, so a later apply_decay rewrites
the current_weight seen through the snapshot with the decay formula. -/
theorem c9_snapshot_aliasing_amended (s : EngineHeap) (now t : ℝ) (i : ℕ)
    (hnd : s.events.Nodup)
    (hwf : ∀ j ∈ s.events, j < s.heap.length)
    (hi : i ∈ (detectStateHeap now s).1.active_events) :
    readWeight (applyDecayHeap t (detectStateHeap now s).2) i =
      (s.heap.getD i default).relevance_score *
        Real.exp (-s.decay_rate * ((t - (s.heap.getD i default).timestamp) / 3600)) := by
  have hmem : i ∈ s.events := by
    have h1 := List.mem_of_mem_take hi
    exact (List.mem_insertionSort (wgeHeap s.heap)).1 h1
  have h := decay_fold_getD s.decay_rate t s.events (s.heap, []) i hnd hmem (hwf i hmem)
  show ((s.events.foldl (decayStep s.decay_rate t) (s.heap, [])).1.getD i default).current_weight = _
  rw [h]
  rfl

/-- Witness for c9_snapshot_aliasing_amended on the one-event heap engine
with rate 0.7: the snapshot entry decays per the formula. -/
theorem c9_snapshot_aliasing_witness :
    readWeight (applyDecayHeap 3600
      (detectStateHeap 0 (ingestHeap 0 10 (initEngineHeap 0.7))).2) 0 =
      ((ingestHeap 0 10 (initEngineHeap 0.7)).heap.getD 0 default).relevance_score *
        Real.exp (-(ingestHeap 0 10 (initEngineHeap 0.7)).decay_rate *
          ((3600 - ((ingestHeap 0 10 (initEngineHeap 0.7)).heap.getD 0 default).timestamp) /
            3600)) := by
  refine c9_snapshot_aliasing_amended (ingestHeap 0 10 (initEngineHeap 0.7)) 0 3600 0 ?_ ?_ ?_
  · show List.Nodup [0]
    simp
  · intro j hj
    have : j = 0 := by simpa [ingestHeap, initEngineHeap] using hj
    subst this
    show 0 < ([] ++ [(⟨10 * 1.0, 0, 10 * 1.0⟩ : StoredEvent)]).length
    simp
  · show 0 ∈ (List.insertionSort (wgeHeap (ingestHeap 0 10 (initEngineHeap 0.7)).heap) [0]).take 5
    simp [List.insertionSort, List.orderedInsert]

/-- Counterexample to C9 as stated: after detect_state returns a snapshot
whose active_events hold the one ingested event, a later apply_decay
changes the current_weight of that snapshot entry (from 10 to
10 * exp(-0.7)), so the snapshot is not immutable. -/
theorem c9_snapshot_mutation_counterexample :
    (detectStateHeap 0 (ingestHeap 0 10 (initEngineHeap 0.7))).1.active_events = [0] ∧
    readWeight (detectStateHeap 0 (ingestHeap 0 10 (initEngineHeap 0.7))).2 0 = 10 * 1.0 ∧
    readWeight (applyDecayHeap 3600
      (detectStateHeap 0 (ingestHeap 0 10 (initEngineHeap 0.7))).2) 0 ≠ 10 * 1.0 := by
  refine ⟨?_, ?_, ?_⟩
  · show (List.insertionSort (wgeHeap (ingestHeap 0 10 (initEngineHeap 0.7)).heap) [0]).take 5 = [0]
    simp [List.insertionSort, List.orderedInsert]
  · rfl
  · have h := decay_fold_getD 0.7 3600 [0]
      ([(⟨10 * 1.0, 0, 10 * 1.0⟩ : StoredEvent)], []) 0 (by simp) (by simp) (by simp)
    show ((([0] : List ℕ).foldl (decayStep 0.7 3600)
      ([(⟨10 * 1.0, 0, 10 * 1.0⟩ : StoredEvent)], [])).1.getD 0 default).current_weight ≠
        10 * 1.0
    rw [h]
    show (10 * 1.0 : ℝ) * Real.exp (-(0.7 : ℝ) * ((3600 - 0) / 3600)) ≠ 10 * 1.0
    have harg : (-(0.7 : ℝ) * (((3600 : ℝ) - 0) / 3600)) = -(0.7 : ℝ) := by norm_num
    rw [harg]
    have hexp : Real.exp (-(0.7 : ℝ)) < 1 := Real.exp_lt_one_iff.mpr (by norm_num)
    intro hcontra
    nlinarith [Real.exp_pos (-(0.7 : ℝ))]

/-! ## C7: bounded FIFO history and change_pct against the oldest point -/

/-- A suffix stays a suffix after appending on the right. -/
lemma isSuffix_append_right {α : Type} {l1 l2 : List α} (t : List α) (h : l1 <:+ l2) :
    l1 ++ t <:+ l2 ++ t := by
  obtain ⟨u, rfl⟩ := h
  exact ⟨u, (List.append_assoc u l1 t).symm⟩

/-- One tick keeps the history length at most 100. -/
lemma update_prices_length (t : Ticker) (inp : TickInput) (h : t.history.length ≤ 100) :
    (update_prices t inp).history.length ≤ 100 := by
  show (if 100 < (t.history ++ [newPoint t inp]).length
    then (t.history ++ [newPoint t inp]).tail else t.history ++ [newPoint t inp]).length ≤ 100
  split_ifs with h1
  · rw [List.length_tail, List.length_append]
    simpa using h
  · rw [List.length_append] at h1 ⊢
    omega

/-- One tick removes at most the oldest point: the new history is a
suffix of the old history with the new point appended. -/
lemma update_prices_suffix (t : Ticker) (inp : TickInput) :
    (update_prices t inp).history <:+ t.history ++ [newPoint t inp] := by
  show (if 100 < (t.history ++ [newPoint t inp]).length
    then (t.history ++ [newPoint t inp]).tail else t.history ++ [newPoint t inp]) <:+
      t.history ++ [newPoint t inp]
  split_ifs
  · exact List.tail_suffix _
  · exact List.suffix_refl _

/-- After one tick, change_pct is the percentage change of the new price
against the oldest retained point. -/
lemma update_prices_change (t : Ticker) (inp : TickInput) :
    (update_prices t inp).change_pct =
      ((update_prices t inp).current_price -
        ((update_prices t inp).history.headD default).price) /
      ((update_prices t inp).history.headD default).price * 100 := rfl

/-- Iterated ticks keep the history length at most 100. -/
lemma run_ticks_length : ∀ (inps : List TickInput) (t : Ticker),
    t.history.length ≤ 100 → (run_ticks t inps).history.length ≤ 100
  | [], _, h => h
  | inp :: rest, t, h => run_ticks_length rest _ (update_prices_length t inp h)

/-- Iterated ticks evict only from the front: the retained history is a
suffix of the initial history followed by every appended point. -/
lemma run_ticks_suffix : ∀ (inps : List TickInput) (t : Ticker),
    (run_ticks t inps).history <:+ t.history ++ run_points t inps
  | [], t => by
    show t.history <:+ t.history ++ []
    rw [List.append_nil]
  | inp :: rest, t => by
    have ih := run_ticks_suffix rest (update_prices t inp)
    have h1 := update_prices_suffix t inp
    have h2 : t.history ++ run_points t (inp :: rest) =
        (t.history ++ [newPoint t inp]) ++ run_points (update_prices t inp) rest := by
      rw [run_points, List.append_assoc]
      rfl
    rw [h2]
    exact ih.trans (isSuffix_append_right _ h1)

/-- C7: over any run of ticks from a history of at most 100 points, the
history length never exceeds 100, eviction is FIFO (the retained history
is a suffix of the full appended sequence), and after every tick
change_pct equals (current_price - oldest retained price) / oldest
retained price * 100. -/
theorem c7_bounded_history_fifo (t : Ticker) (inps : List TickInput)
    (h100 : t.history.length ≤ 100) :
    (run_ticks t inps).history.length ≤ 100 ∧
    (run_ticks t inps).history <:+ t.history ++ run_points t inps ∧
    (∀ (pre : List TickInput) (inp : TickInput), inps = pre ++ [inp] →
      (run_ticks t inps).change_pct =
        ((run_ticks t inps).current_price -
          ((run_ticks t inps).history.headD default).price) /
        ((run_ticks t inps).history.headD default).price * 100) := by
  refine ⟨run_ticks_length inps t h100, run_ticks_suffix inps t, fun pre inp he => ?_⟩
  subst he
  show (run_ticks t (pre ++ [inp])).change_pct = _
  have hr : run_ticks t (pre ++ [inp]) = update_prices (run_ticks t pre) inp := by
    show List.foldl update_prices t (pre ++ [inp]) = _
    rw [List.foldl_append]
    rfl
  rw [hr]
  exact update_prices_change (run_ticks t pre) inp

/-- Witness for c7_bounded_history_fifo: the one-point SPX ticker after a
single tick. -/
theorem c7_bounded_history_witness :
    (run_ticks spxTicker [tick0]).history.length ≤ 100 ∧
    (run_ticks spxTicker [tick0]).history <:+ spxTicker.history ++ run_points spxTicker [tick0] ∧
    (run_ticks spxTicker [tick0]).change_pct =
      ((run_ticks spxTicker [tick0]).current_price -
        ((run_ticks spxTicker [tick0]).history.headD default).price) /
      ((run_ticks spxTicker [tick0]).history.headD default).price * 100 := by
  have h := c7_bounded_history_fifo spxTicker [tick0]
    (by show ([(⟨0, 1, 0⟩ : PricePoint)]).length ≤ 100; simp)
  exact ⟨h.1, h.2.1, h.2.2 [] tick0 rfl⟩

/-! ## C5: scalar Bollinger band functional spec -/

/-- Indexing into a map over a range. -/
lemma getD_map_range (n i : ℕ) (f : ℕ → ℝ) (hi : i < n) :
    ((List.range n).map f).getD i 0 = f i := by
  rw [List.getD_eq_getElem?_getD, List.getElem?_map, List.getElem?_range hi]
  rfl

/-- The upper band at an in-range index is the bandsAt first component. -/
lemma cbb_fst_getD (history : List PricePoint) (w : ℕ) (ns : ℝ) (i : ℕ)
    (hi : i < history.length) :
    (calculate_bollinger_bands history w ns).1.getD i 0 =
      (bandsAt (history.map fun p => p.price) w ns i).1 := by
  show ((List.range (history.map fun p => p.price).length).map
    (fun i => (bandsAt (history.map fun p => p.price) w ns i).1)).getD i 0 = _
  rw [List.length_map]
  exact getD_map_range _ _ _ hi

/-- The middle band at an in-range index is the bandsAt middle component. -/
lemma cbb_mid_getD (history : List PricePoint) (w : ℕ) (ns : ℝ) (i : ℕ)
    (hi : i < history.length) :
    (calculate_bollinger_bands history w ns).2.1.getD i 0 =
      (bandsAt (history.map fun p => p.price) w ns i).2.1 := by
  show ((List.range (history.map fun p => p.price).length).map
    (fun i => (bandsAt (history.map fun p => p.price) w ns i).2.1)).getD i 0 = _
  rw [List.length_map]
  exact getD_map_range _ _ _ hi

/-- The lower band at an in-range index is the bandsAt last component. -/
lemma cbb_low_getD (history : List PricePoint) (w : ℕ) (ns : ℝ) (i : ℕ)
    (hi : i < history.length) :
    (calculate_bollinger_bands history w ns).2.2.getD i 0 =
      (bandsAt (history.map fun p => p.price) w ns i).2.2 := by
  show ((List.range (history.map fun p => p.price).length).map
    (fun i => (bandsAt (history.map fun p => p.price) w ns i).2.2)).getD i 0 = _
  rw [List.length_map]
  exact getD_map_range _ _ _ hi

/-- All three output arrays have the length of the input history. -/
lemma cbb_lengths (history : List PricePoint) (w : ℕ) (ns : ℝ) :
    (calculate_bollinger_bands history w ns).1.length = history.length ∧
    (calculate_bollinger_bands history w ns).2.1.length = history.length ∧
    (calculate_bollinger_bands history w ns).2.2.length = history.length := by
  refine ⟨?_, ?_, ?_⟩ <;>
    simp [calculate_bollinger_bands]

/-- The pass-through branch of bandsAt. -/
lemma bandsAt_pass (prices : List ℝ) (w : ℕ) (ns : ℝ) (i : ℕ) (h : i < w - 1) :
    bandsAt prices w ns i = (prices.getD i 0, prices.getD i 0, prices.getD i 0) := by
  unfold bandsAt
  rw [if_pos h]

/-- The full-window branch of bandsAt, written out. -/
lemma bandsAt_formula (prices : List ℝ) (w : ℕ) (ns : ℝ) (i : ℕ) (h : ¬ i < w - 1) :
    bandsAt prices w ns i =
      (((prices.drop (i + 1 - w)).take w).sum / (w : ℝ) +
        Real.sqrt ((((prices.drop (i + 1 - w)).take w).map
          (fun x => (x - ((prices.drop (i + 1 - w)).take w).sum / (w : ℝ)) ^ 2)).sum /
            (w : ℝ)) * ns,
       ((prices.drop (i + 1 - w)).take w).sum / (w : ℝ),
       ((prices.drop (i + 1 - w)).take w).sum / (w : ℝ) -
        Real.sqrt ((((prices.drop (i + 1 - w)).take w).map
          (fun x => (x - ((prices.drop (i + 1 - w)).take w).sum / (w : ℝ)) ^ 2)).sum /
            (w : ℝ)) * ns) := by
  unfold bandsAt
  rw [if_neg h]

/-- On a constant price list the band triple degenerates to the constant
at every in-range index: the trailing window is constant, so its standard
deviation is zero. -/
lemma bandsAt_const (prices : List ℝ) (c : ℝ) (w : ℕ) (ns : ℝ) (i : ℕ)
    (hw : 1 ≤ w) (hconst : ∀ x ∈ prices, x = c) (hi : i < prices.length) :
    bandsAt prices w ns i = (c, c, c) := by
  have hgetD : prices.getD i 0 = c := by
    rw [List.getD_eq_getElem?_getD, List.getElem?_eq_getElem hi]
    exact hconst _ (List.getElem_mem hi)
  by_cases h : i < w - 1
  · rw [bandsAt_pass prices w ns i h, hgetD]
  · have hw_le : w ≤ i + 1 := by omega
    have hrep : (prices.drop (i + 1 - w)).take w = List.replicate w c := by
      refine List.eq_replicate_iff.2 ⟨?_, ?_⟩
      · rw [List.length_take, List.length_drop]
        omega
      · exact fun x hx => hconst x (List.mem_of_mem_drop (List.mem_of_mem_take hx))
    rw [bandsAt_formula prices w ns i h, hrep]
    have hsum : (List.replicate w c).sum = (w : ℝ) * c := by
      rw [List.sum_replicate, nsmul_eq_mul]
    have hw0 : (w : ℝ) ≠ 0 := by
      have : 0 < w := hw
      exact_mod_cast this.ne'
    have havg : (List.replicate w c).sum / (w : ℝ) = c := by
      rw [hsum]
      field_simp
    rw [havg, List.map_replicate]
    simp [List.sum_replicate]

/-- C5: calculate_bollinger_bands returns three arrays of the same length
as the input; below a full window all three pass the raw price through;
at a full window the middle is the trailing mean, the deviation is the
population standard deviation, and upper/lower are middle plus/minus
num_std deviations; on a constant-price history the three bands
coincide everywhere. -/
theorem c5_bands_spec (history : List PricePoint) (window : ℕ) (num_std : ℝ)
    (hw : 1 ≤ window) :
    ((calculate_bollinger_bands history window num_std).1.length = history.length ∧
     (calculate_bollinger_bands history window num_std).2.1.length = history.length ∧
     (calculate_bollinger_bands history window num_std).2.2.length = history.length) ∧
    (∀ i, i < history.length → i < window - 1 →
      (calculate_bollinger_bands history window num_std).1.getD i 0 =
        (history.map fun p => p.price).getD i 0 ∧
      (calculate_bollinger_bands history window num_std).2.1.getD i 0 =
        (history.map fun p => p.price).getD i 0 ∧
      (calculate_bollinger_bands history window num_std).2.2.getD i 0 =
        (history.map fun p => p.price).getD i 0) ∧
    (∀ i, i < history.length → ¬ i < window - 1 →
      (calculate_bollinger_bands history window num_std).2.1.getD i 0 =
        (((history.map fun p => p.price).drop (i + 1 - window)).take window).sum /
          (window : ℝ) ∧
      (calculate_bollinger_bands history window num_std).1.getD i 0 =
        (calculate_bollinger_bands history window num_std).2.1.getD i 0 +
          Real.sqrt (((((history.map fun p => p.price).drop (i + 1 - window)).take window).map
            (fun x => (x - (calculate_bollinger_bands history window num_std).2.1.getD i 0) ^ 2)).sum /
              (window : ℝ)) * num_std ∧
      (calculate_bollinger_bands history window num_std).2.2.getD i 0 =
        (calculate_bollinger_bands history window num_std).2.1.getD i 0 -
          Real.sqrt (((((history.map fun p => p.price).drop (i + 1 - window)).take window).map
            (fun x => (x - (calculate_bollinger_bands history window num_std).2.1.getD i 0) ^ 2)).sum /
              (window : ℝ)) * num_std) ∧
    (∀ c : ℝ, (∀ p ∈ history, p.price = c) → ∀ i : ℕ,
      (calculate_bollinger_bands history window num_std).1.getD i 0 =
        (calculate_bollinger_bands history window num_std).2.1.getD i 0 ∧
      (calculate_bollinger_bands history window num_std).2.2.getD i 0 =
        (calculate_bollinger_bands history window num_std).2.1.getD i 0) := by
  refine ⟨cbb_lengths history window num_std, fun i hi hpass => ?_, fun i hi hfull => ?_,
    fun c hconst i => ?_⟩
  · rw [cbb_fst_getD history window num_std i hi, cbb_mid_getD history window num_std i hi,
      cbb_low_getD history window num_std i hi, bandsAt_pass _ window num_std i hpass]
    exact ⟨rfl, rfl, rfl⟩
  · rw [cbb_fst_getD history window num_std i hi, cbb_mid_getD history window num_std i hi,
      cbb_low_getD history window num_std i hi, bandsAt_formula _ window num_std i hfull]
    exact ⟨rfl, rfl, rfl⟩
  · by_cases hi : i < history.length
    · have hconst2 : ∀ x ∈ history.map fun p => p.price, x = c := by
        intro x hx
        obtain ⟨p, hp, rfl⟩ := List.mem_map.1 hx
        exact hconst p hp
      have hi2 : i < (history.map fun p => p.price).length := by
        rw [List.length_map]; exact hi
      rw [cbb_fst_getD history window num_std i hi, cbb_mid_getD history window num_std i hi,
        cbb_low_getD history window num_std i hi,
        bandsAt_const (history.map fun p => p.price) c window num_std i hw hconst2 hi2]
      exact ⟨rfl, rfl⟩
    · have h1 : (calculate_bollinger_bands history window num_std).1.getD i 0 = 0 :=
        List.getD_eq_default _ _ (by rw [(cbb_lengths history window num_std).1]; omega)
      have h2 : (calculate_bollinger_bands history window num_std).2.1.getD i 0 = 0 :=
        List.getD_eq_default _ _ (by rw [(cbb_lengths history window num_std).2.1]; omega)
      have h3 : (calculate_bollinger_bands history window num_std).2.2.getD i 0 = 0 :=
        List.getD_eq_default _ _ (by rw [(cbb_lengths history window num_std).2.2]; omega)
      rw [h1, h2, h3]
      exact ⟨rfl, rfl⟩

/-- Witness for c5_bands_spec: the two-point constant history at price 5
with window 2 has coinciding bands at index 1 and full-length output. -/
theorem c5_bands_witness :
    (calculate_bollinger_bands constHistory 2 2.0).2.1.length = 2 ∧
    (calculate_bollinger_bands constHistory 2 2.0).1.getD 1 0 =
      (calculate_bollinger_bands constHistory 2 2.0).2.1.getD 1 0 ∧
    (calculate_bollinger_bands constHistory 2 2.0).2.2.getD 1 0 =
      (calculate_bollinger_bands constHistory 2 2.0).2.1.getD 1 0 := by
  have h := c5_bands_spec constHistory 2 2.0 (by norm_num)
  have hconst : ∀ p ∈ constHistory, p.price = 5 := by
    intro p hp
    rcases List.mem_cons.1 hp with h1 | h1
    · rw [h1]
    · rcases List.mem_cons.1 h1 with h2 | h2
      · rw [h2]
      · exact absurd h2 (List.not_mem_nil p)
  have hflat := h.2.2.2 5 hconst 1
  exact ⟨by rw [h.1.2.1]; rfl, hflat.1, hflat.2⟩

/-! ## C4: vectorized versus scalar Bollinger bands -/

/-- Backfilling preserves the array length. -/
lemma bfill_length (l : List (Option ℝ)) : (bfill l).length = l.length := by
  induction l with
  | nil => rfl
  | cons x xs ih =>
    cases x <;> simp [bfill, ih]

/-- The rolling mean has one entry per input index. -/
lemma rollingMean_length (prices : List ℝ) (w : ℕ) :
    (rollingMean prices w).length = prices.length := by
  simp [rollingMean]

/-- The rolling standard deviation has one entry per input index. -/
lemma rollingStd_length (prices : List ℝ) (w : ℕ) :
    (rollingStd prices w).length = prices.length := by
  simp [rollingStd]

/-- C4 amended: the scalar implementation always returns arrays of the
input length, while the vectorized implementation returns empty arrays
whenever the input is empty or shorter than the window, and arrays of
the input length otherwise — so the two are not equivalent on short
inputs. -/
theorem c4_vectorized_scalar_lengths (history : List PricePoint) (window : ℕ)
    (num_std : ℝ) :
    (calculate_bollinger_bands history window num_std).1.length = history.length ∧
    (calculate_bollinger_bands history window num_std).2.1.length = history.length ∧
    (calculate_bollinger_bands history window num_std).2.2.length = history.length ∧
    (((history.map fun p => p.price) = [] ∨
        (history.map fun p => p.price).length < window) →
      calculate_bollinger_bands_vectorized (history.map fun p => p.price) window num_std =
        ([], [], [])) ∧
    (¬((history.map fun p => p.price) = [] ∨
        (history.map fun p => p.price).length < window) →
      (calculate_bollinger_bands_vectorized (history.map fun p => p.price) window
          num_std).1.length = history.length ∧
      (calculate_bollinger_bands_vectorized (history.map fun p => p.price) window
          num_std).2.1.length = history.length ∧
      (calculate_bollinger_bands_vectorized (history.map fun p => p.price) window
          num_std).2.2.length = history.length) := by
  refine ⟨(cbb_lengths history window num_std).1, (cbb_lengths history window num_std).2.1,
    (cbb_lengths history window num_std).2.2, fun h => ?_, fun h => ?_⟩
  · unfold calculate_bollinger_bands_vectorized
    rw [if_pos h]
  · unfold calculate_bollinger_bands_vectorized
    rw [if_neg h]
    refine ⟨?_, ?_, ?_⟩ <;>
      simp [bfill_length, List.length_zipWith, rollingMean_length, rollingStd_length]

/-- Counterexample to C4 as stated: on the single price 1 with the
default window 20, the vectorized implementation returns empty arrays
while the scalar one returns arrays of length 1, so the outputs do not
even have the same length. -/
theorem c4_vectorized_scalar_counterexample :
    calculate_bollinger_bands_vectorized [(1 : ℝ)] 20 2.0 = ([], [], []) ∧
    (calculate_bollinger_bands [⟨0, 1, 0⟩] 20 2.0).2.1.length = 1 ∧
    (calculate_bollinger_bands_vectorized [(1 : ℝ)] 20 2.0).2.1.length ≠
      (calculate_bollinger_bands [⟨0, 1, 0⟩] 20 2.0).2.1.length := by
  have h1 : calculate_bollinger_bands_vectorized [(1 : ℝ)] 20 2.0 = ([], [], []) := by
    unfold calculate_bollinger_bands_vectorized
    rw [if_pos (Or.inr (by norm_num))]
  have h2 : (calculate_bollinger_bands [(⟨0, 1, 0⟩ : PricePoint)] 20 2.0).2.1.length = 1 := by
    rw [(cbb_lengths _ 20 2.0).2.1]
    rfl
  refine ⟨h1, h2, ?_⟩
  rw [h1, h2]
  simp

/-- Witness for c4_vectorized_scalar_lengths: the one-point history with
window 20 hits the empty-output prong; the two-point constant history
with window 2 hits the full-length prong. -/
theorem c4_vectorized_scalar_witness :
    calculate_bollinger_bands_vectorized ([(⟨0, 1, 0⟩ : PricePoint)].map fun p => p.price)
      20 2.0 = ([], [], []) ∧
    (calculate_bollinger_bands_vectorized (constHistory.map fun p => p.price)
      2 2.0).2.1.length = 2 := by
  constructor
  · exact (c4_vectorized_scalar_lengths [⟨0, 1, 0⟩] 20 2.0).2.2.2.1 (Or.inr (by simp))
  · have h := (c4_vectorized_scalar_lengths constHistory 2 2.0).2.2.2.2
      (by simp [constHistory])
    rw [h.2.1]
    rfl

/-! ## C6: division guards -/

/-- The last entry of a nonempty constant list. -/
lemma getLastD_replicate (n : ℕ) (a d : ℝ) (h : 0 < n) :
    (List.replicate n a).getLastD d = a := by
  induction n with
  | zero => omega
  | succ m ih =>
    cases m with
    | zero => rfl
    | succ k =>
      rw [List.replicate_succ]
      simp only [List.getLastD_cons]
      exact ih (by omega)

/-- The upper band of the zero ticker is identically zero. -/
lemma cbb_zero_fst :
    (calculate_bollinger_bands zeroTicker.history 20 2.0).1 = List.replicate 20 0 := by
  have hprices : zeroTicker.history.map (fun p => p.price) = List.replicate 20 (0 : ℝ) := by
    show (List.replicate 20 zeroPricePoint).map (fun p => p.price) = _
    rw [List.map_replicate]
    rfl
  show (List.range (zeroTicker.history.map fun p => p.price).length).map
    (fun i => (bandsAt (zeroTicker.history.map fun p => p.price) 20 2.0 i).1) = _
  rw [hprices, List.length_replicate]
  have hone : ∀ i ∈ List.range 20,
      (fun i => (bandsAt (List.replicate 20 (0 : ℝ)) 20 2.0 i).1) i = (fun _ => (0 : ℝ)) i := by
    intro i hi
    show (bandsAt (List.replicate 20 (0 : ℝ)) 20 2.0 i).1 = 0
    rw [bandsAt_const (List.replicate 20 (0 : ℝ)) 0 20 2.0 i (by norm_num)
      (fun x hx => List.eq_of_mem_replicate hx) (by simpa using List.mem_range.1 hi)]
  rw [List.map_congr_left hone, List.map_const', List.length_range]

/-- The middle band of the zero ticker is identically zero. -/
lemma cbb_zero_mid :
    (calculate_bollinger_bands zeroTicker.history 20 2.0).2.1 = List.replicate 20 0 := by
  have hprices : zeroTicker.history.map (fun p => p.price) = List.replicate 20 (0 : ℝ) := by
    show (List.replicate 20 zeroPricePoint).map (fun p => p.price) = _
    rw [List.map_replicate]
    rfl
  show (List.range (zeroTicker.history.map fun p => p.price).length).map
    (fun i => (bandsAt (zeroTicker.history.map fun p => p.price) 20 2.0 i).2.1) = _
  rw [hprices, List.length_replicate]
  have hone : ∀ i ∈ List.range 20,
      (fun i => (bandsAt (List.replicate 20 (0 : ℝ)) 20 2.0 i).2.1) i = (fun _ => (0 : ℝ)) i := by
    intro i hi
    show (bandsAt (List.replicate 20 (0 : ℝ)) 20 2.0 i).2.1 = 0
    rw [bandsAt_const (List.replicate 20 (0 : ℝ)) 0 20 2.0 i (by norm_num)
      (fun x hx => List.eq_of_mem_replicate hx) (by simpa using List.mem_range.1 hi)]
  rw [List.map_congr_left hone, List.map_const', List.length_range]

/-- The lower band of the zero ticker is identically zero. -/
lemma cbb_zero_low :
    (calculate_bollinger_bands zeroTicker.history 20 2.0).2.2 = List.replicate 20 0 := by
  have hprices : zeroTicker.history.map (fun p => p.price) = List.replicate 20 (0 : ℝ) := by
    show (List.replicate 20 zeroPricePoint).map (fun p => p.price) = _
    rw [List.map_replicate]
    rfl
  show (List.range (zeroTicker.history.map fun p => p.price).length).map
    (fun i => (bandsAt (zeroTicker.history.map fun p => p.price) 20 2.0 i).2.2) = _
  rw [hprices, List.length_replicate]
  have hone : ∀ i ∈ List.range 20,
      (fun i => (bandsAt (List.replicate 20 (0 : ℝ)) 20 2.0 i).2.2) i = (fun _ => (0 : ℝ)) i := by
    intro i hi
    show (bandsAt (List.replicate 20 (0 : ℝ)) 20 2.0 i).2.2 = 0
    rw [bandsAt_const (List.replicate 20 (0 : ℝ)) 0 20 2.0 i (by norm_num)
      (fun x hx => List.eq_of_mem_replicate hx) (by simpa using List.mem_range.1 hi)]
  rw [List.map_congr_left hone, List.map_const', List.length_range]

/-- The zero ticker has 20 history points yet analyze_risk_depth raises
ZeroDivisionError (none): the final division by the zero middle band is
not guarded. -/
lemma analyze_risk_depth_zeroTicker : analyze_risk_depth zeroTicker = none := by
  have hlen : ¬ zeroTicker.history.length < 20 := by
    show ¬ (List.replicate 20 zeroPricePoint).length < 20
    simp
  have hm : (calculate_bollinger_bands zeroTicker.history 20 2.0).2.1.getLastD 0 = 0 := by
    rw [cbb_zero_mid]
    exact getLastD_replicate 20 0 0 (by norm_num)
  have hdiv : pydiv ((calculate_bollinger_bands zeroTicker.history 20 2.0).1.getLastD 0 -
      (calculate_bollinger_bands zeroTicker.history 20 2.0).2.2.getLastD 0)
      ((calculate_bollinger_bands zeroTicker.history 20 2.0).2.1.getLastD 0) = none := by
    rw [hm]
    unfold pydiv
    rw [if_pos rfl]
  unfold analyze_risk_depth
  rw [if_neg hlen]
  simp only [hdiv]

/-- Counterexample to C6 as stated: the zero ticker has 20 history
points, its latest middle band is 0, and analyze_risk_depth does not
return a sentinel result — the division by the zero middle raises
(modelled as none). -/
theorem c6_zero_middle_counterexample :
    zeroTicker.history.length = 20 ∧
    (calculate_bollinger_bands zeroTicker.history 20 2.0).2.1.getLastD 0 = 0 ∧
    analyze_risk_depth zeroTicker = none := by
  refine ⟨?_, ?_, analyze_risk_depth_zeroTicker⟩
  · show (List.replicate 20 zeroPricePoint).length = 20
    simp
  · rw [cbb_zero_mid]
    exact getLastD_replicate 20 0 0 (by norm_num)

/-- C6 amended: batch_update_tankers clamps every distance divisor to at
least 0.001 before dividing, but analyze_risk_depth does not guard the
zero band-middle: a ticker with 20 points and zero middle band makes the
final division raise instead of returning a sentinel. -/
theorem c6_division_guards_amended
    (latitudes longitudes dest_lats dest_lons : List ℝ)
    (statuses : List ℤ) (speed_factor : ℝ) :
    (∀ d ∈ clamped_distances latitudes longitudes dest_lats dest_lons,
      (0.001 : ℝ) ≤ d ∧ 0 < d) ∧
    (batch_update_tankers latitudes longitudes dest_lats dest_lons statuses
        speed_factor).2.2.2 =
      (clamped_distances latitudes longitudes dest_lats dest_lons).map
        (fun d => decide (d < 2.0)) ∧
    analyze_risk_depth zeroTicker = none := by
  refine ⟨fun d hd => ?_, rfl, analyze_risk_depth_zeroTicker⟩
  obtain ⟨x, _, rfl⟩ := List.mem_map.1 hd
  refine ⟨le_max_right x 0.001, lt_of_lt_of_le (by norm_num) (le_max_right x 0.001)⟩

/-- Witness for c6_division_guards_amended: the singleton fleet at the
origin with destination the origin has clamped distance max 0 0.001. -/
theorem c6_division_guards_witness :
    ((0.001 : ℝ) ≤ max (Real.sqrt (((0 : ℝ) - 0) ^ 2 + ((0 : ℝ) - 0) ^ 2)) 0.001 ∧
      (0 : ℝ) < max (Real.sqrt (((0 : ℝ) - 0) ^ 2 + ((0 : ℝ) - 0) ^ 2)) 0.001) ∧
    analyze_risk_depth zeroTicker = none := by
  have hd : max (Real.sqrt (((0 : ℝ) - 0) ^ 2 + ((0 : ℝ) - 0) ^ 2)) 0.001 ∈
      clamped_distances [(0 : ℝ)] [0] [0] [0] := by
    show _ ∈ (List.zipWith (fun a b => Real.sqrt (a ^ 2 + b ^ 2))
      (List.zipWith (fun d l => d - l) [(0 : ℝ)] [0])
      (List.zipWith (fun d l => d - l) [(0 : ℝ)] [0])).map (fun d => max d 0.001)
    simp
  exact ⟨(c6_division_guards_amended [0] [0] [0] [0] [1] 1.0).1 _ hd,
    (c6_division_guards_amended [0] [0] [0] [0] [1] 1.0).2.2⟩

end FinanceX
